import Mathlib

/-!
A shallow embedding of the `policy-peeker-backend-live2` server
(`src/server.js`) — an Express service exposing `POST /summarize` — together
with proofs about its request pipeline: input validation, sanitization,
resilient parsing of the upstream completion text, output normalization
and rate limiting.

Modelling conventions:
* JavaScript strings are modelled as Lean `String` / `List Char` over code
  points (the claims under study only involve BMP characters, where JS
  UTF-16 lengths agree with code-point counts).
* JSON numbers are modelled exactly as a decimal mantissa/exponent pair
  `m * 10 ^ e` instead of IEEE doubles; no claim depends on floating-point
  rounding or on JavaScript's number-to-string formatting.
* Fallible JavaScript code (thrown exceptions) is modelled with `Option`.
-/

namespace PP

/-! ### Character classes

`String.prototype.trim` and the regex class `\s` use the same set of
ECMAScript whitespace characters (WhiteSpace ∪ LineTerminator). -/

def isJsSpace (c : Char) : Bool :=
  let n := c.toNat
  n = 0x9 || n = 0xa || n = 0xb || n = 0xc || n = 0xd || n = 0x20 ||
  n = 0xa0 || n = 0x1680 || (0x2000 ≤ n && n ≤ 0x200a) ||
  n = 0x2028 || n = 0x2029 || n = 0x202f || n = 0x205f || n = 0x3000 ||
  n = 0xfeff

/-- `text.trim()` on the underlying character list. -/
def jsTrim (l : List Char) : List Char :=
  ((l.dropWhile isJsSpace).reverse.dropWhile isJsSpace).reverse

/-! ### `validator.escape`

`escape` from the `validator` package replaces each of the eight characters
`& " ' < > / \ `` ` by an HTML entity (ampersand first, so the sequential
`String.replace` chain acts as the per-character map below). -/

def escChar (c : Char) : List Char :=
  if c = '&' then "&amp;".data
  else if c = '"' then "&quot;".data
  else if c = '\'' then "&#x27;".data
  else if c = '<' then "&lt;".data
  else if c = '>' then "&gt;".data
  else if c = '/' then "&#x2F;".data
  else if c = '\\' then "&#x5C;".data
  else if c = '`' then "&#96;".data
  else [c]

def escapeHtml : List Char → List Char
  | [] => []
  | c :: rest => escChar c ++ escapeHtml rest

/-- `.replace(/\s+/g, " ")`: each maximal run of whitespace becomes a single
space.  The boolean argument records whether the previous character kept was
part of a whitespace run. -/
def collapseAux : Bool → List Char → List Char
  | _, [] => []
  | inRun, c :: rest =>
    if isJsSpace c then
      if inRun then collapseAux true rest
      else ' ' :: collapseAux true rest
    else c :: collapseAux false rest

def collapseWs (l : List Char) : List Char := collapseAux false l

/-- `escape(trimmed).replace(/\s+/g, " ").slice(0, 20000)` (server.js:76),
applied to the already-trimmed text. -/
def sanitize (trimmed : List Char) : List Char :=
  (collapseWs (escapeHtml trimmed)).take 20000

/-! ### Proper escaping

The eight entity strings `escChar` can emit.  A character list is *properly
escaped* when every occurrence of `'&'` in it starts one of these complete
entities; this is the formal reading of "contains no raw `&`". -/

def entities : List (List Char) :=
  ["&amp;".data, "&quot;".data, "&#x27;".data, "&lt;".data,
   "&gt;".data, "&#x2F;".data, "&#x5C;".data, "&#96;".data]

def startsEntity (l : List Char) : Bool :=
  entities.any (fun e => e.isPrefixOf l)

def properEsc : List Char → Bool
  | [] => true
  | c :: rest => (if c = '&' then startsEntity (c :: rest) else true) && properEsc rest

example : sanitize "a<b".data = "a&lt;b".data := by decide
example : sanitize "a \t b".data = "a b".data := by decide
example : properEsc "x&amp;y".data = true := by decide
example : properEsc "x&ampy".data = false := by decide

/-! ### JSON values

The result type of `JSON.parse`.  Numbers carry an exact decimal mantissa
and exponent (`num m e` denotes `m * 10 ^ e`). -/

inductive Json where
  | null
  | bool (b : Bool)
  | num (m : Int) (e : Int)
  | str (s : String)
  | arr (elems : List Json)
  | obj (members : List (String × Json))

/-- JavaScript truthiness of a JSON value (`undefined` is handled at the
`Option Json` level by the callers). -/
def jtruthy : Json → Bool
  | .null => false
  | .bool b => b
  | .num m _ => m ≠ 0
  | .str s => s.data ≠ []
  | .arr _ => true
  | .obj _ => true

/-- Object member lookup.  `JSON.parse` lets a duplicated key overwrite the
earlier one, so the *last* binding wins. -/
def lookupLast (k : String) : List (String × Json) → Option Json
  | [] => none
  | (k1, v) :: rest =>
    match lookupLast k rest with
    | some v2 => some v2
    | none => if k1 = k then some v else none

/-- Property access `v.k` for a value already known to be truthy (hence not
`null`): objects look the key up, everything else yields `undefined`. -/
def jfield (v : Json) (k : String) : Option Json :=
  match v with
  | .obj kvs => lookupLast k kvs
  | _ => none

/-- Property access `v.k` as the code performs it on `parsed`: on `null` it
throws a `TypeError` (modelled as `none`); otherwise it evaluates to
`some (jfield v k)`, where an absent key is `undefined`. -/
def getField (v : Json) (k : String) : Option (Option Json) :=
  match v with
  | .null => none
  | .obj kvs => some (lookupLast k kvs)
  | _ => some none

/-- Decimal rendering of `m * 10 ^ e` used by the `String(...)` model.  It
prints the exact decimal value (JavaScript's double-to-shortest-string
formatting is not modelled; every rendering is still a digit string,
optionally with `-`, `.` — which is all the proofs rely on). -/
def numToString (m : Int) (e : Int) : String :=
  let digits := (toString m.natAbs).data
  let sign : List Char := if m < 0 then ['-'] else []
  String.mk
    (match e with
     | .ofNat n => sign ++ digits ++ List.replicate n '0'
     | .negSucc n =>
       let k := n + 1
       if digits.length ≤ k then
         sign ++ '0' :: '.' :: (List.replicate (k - digits.length) '0' ++ digits)
       else
         sign ++ (digits.take (digits.length - k) ++ '.' :: digits.drop (digits.length - k)))

mutual

/-- JavaScript `String(v)` on a JSON value. -/
def jsToString : Json → String
  | .null => "null"
  | .bool true => "true"
  | .bool false => "false"
  | .num m e => numToString m e
  | .str s => s
  | .arr xs => jsListToString xs
  | .obj _ => "[object Object]"

/-- `Array.prototype.toString` = `join(",")`. -/
def jsListToString : List Json → String
  | [] => ""
  | [j] => jsElemToString j
  | j :: rest => jsElemToString j ++ "," ++ jsListToString rest

/-- Inside `join`, a `null` element renders as the empty string. -/
def jsElemToString : Json → String
  | .null => ""
  | j => jsToString j

end

/-- `String.prototype.toLowerCase`, restricted to the ASCII case mapping
(`Char.toLower`); sufficient for the alphabets appearing in the pipeline. -/
def jsToLower (s : String) : String := String.mk (s.data.map Char.toLower)

example : jsToString (.arr [.null, .str "a"]) = ",a" := by
  simp [jsToString, jsListToString, jsElemToString]
example : numToString 105 (-2) = "1.05" := by decide
example : numToString (-3) 1 = "-30" := by decide

/-! ### `JSON.parse`

A recursive-descent parser for the (strict) JSON grammar that `JSON.parse`
accepts; fuelled so that all recursion is structural and kernel-reducible.
The fuel only ever needs to exceed the input length. -/

def isJsonWs (c : Char) : Bool :=
  c = ' ' || c = '\t' || c = '\n' || c = '\r'

def skipWs (l : List Char) : List Char := l.dropWhile isJsonWs

def isDigit (c : Char) : Bool := '0' ≤ c && c ≤ '9'

def digitsToNat (acc : Nat) : List Char → Nat
  | [] => acc
  | c :: rest => digitsToNat (acc * 10 + (c.toNat - 48)) rest

def hexVal (c : Char) : Option Nat :=
  if '0' ≤ c && c ≤ '9' then some (c.toNat - 48)
  else if 'a' ≤ c && c ≤ 'f' then some (c.toNat - 87)
  else if 'A' ≤ c && c ≤ 'F' then some (c.toNat - 55)
  else none

/-- Fractional part `.digits` (empty when absent, failing on a bare dot). -/
def parseFrac : List Char → Option (List Char × List Char)
  | '.' :: r =>
    let fd := r.takeWhile isDigit
    if fd.length = 0 then none else some (fd, r.dropWhile isDigit)
  | l => some ([], l)

/-- Exponent part `e[+-]digits` (0 when absent). -/
def parseExp (l : List Char) : Option (Int × List Char) :=
  match l with
  | c :: r =>
    if c = 'e' || c = 'E' then
      let (esign, r1) : Int × List Char :=
        match r with
        | '+' :: rr => (1, rr)
        | '-' :: rr => (-1, rr)
        | _ => (1, r)
      let ed := r1.takeWhile isDigit
      if ed.length = 0 then none
      else some (esign * (digitsToNat 0 ed : Int), r1.dropWhile isDigit)
    else some (0, l)
  | [] => some (0, [])

/-- JSON number: `-?(0|[1-9][0-9]*)(\.[0-9]+)?([eE][+-]?[0-9]+)?`, returned
as mantissa and decimal exponent. -/
def parseNumber (l : List Char) : Option ((Int × Int) × List Char) :=
  let (neg, l1) : Bool × List Char :=
    match l with
    | '-' :: r => (true, r)
    | _ => (false, l)
  let intDigits := l1.takeWhile isDigit
  if intDigits.length = 0 then none
  else if 2 ≤ intDigits.length ∧ intDigits.headI = '0' then none
  else
    match parseFrac (l1.dropWhile isDigit) with
    | none => none
    | some (fd, l3) =>
      match parseExp l3 with
      | none => none
      | some (ex, l4) =>
        let mant : Int := (digitsToNat 0 (intDigits ++ fd) : Nat)
        let mant := if neg then -mant else mant
        some ((mant, ex - (fd.length : Int)), l4)

mutual

/-- One JSON value, after skipping leading whitespace; returns the value and
the unconsumed remainder. -/
def parseValue : Nat → List Char → Option (Json × List Char)
  | 0, _ => none
  | fuel+1, l =>
    match skipWs l with
    | [] => none
    | c :: rest =>
      if c = 'n' then
        if List.isPrefixOf "ull".data rest then some (.null, rest.drop 3) else none
      else if c = 't' then
        if List.isPrefixOf "rue".data rest then some (.bool true, rest.drop 3) else none
      else if c = 'f' then
        if List.isPrefixOf "alse".data rest then some (.bool false, rest.drop 4) else none
      else if c = '"' then
        match parseStringBody fuel rest with
        | some (s, r) => some (.str (String.mk s), r)
        | none => none
      else if c = '[' then
        match parseArrayItems fuel true (skipWs rest) with
        | some (vs, r) => some (.arr vs, r)
        | none => none
      else if c = '{' then
        match parseObjectItems fuel true (skipWs rest) with
        | some (kvs, r) => some (.obj kvs, r)
        | none => none
      else if c = '-' || isDigit c then
        match parseNumber (c :: rest) with
        | some (me, r) => some (.num me.1 me.2, r)
        | none => none
      else none
  termination_by structural fuel => fuel

/-- String body after the opening quote, decoding escapes, up to the closing
quote. -/
def parseStringBody : Nat → List Char → Option (List Char × List Char)
  | 0, _ => none
  | fuel+1, l =>
    match l with
    | [] => none
    | c :: rest =>
      if c = '"' then some ([], rest)
      else if c = '\\' then
        match rest with
        | [] => none
        | e :: r2 =>
          let dec : Option (Char × List Char) :=
            if e = '"' then some ('"', r2)
            else if e = '\\' then some ('\\', r2)
            else if e = '/' then some ('/', r2)
            else if e = 'b' then some ('\x08', r2)
            else if e = 'f' then some ('\x0c', r2)
            else if e = 'n' then some ('\n', r2)
            else if e = 'r' then some ('\x0d', r2)
            else if e = 't' then some ('\t', r2)
            else if e = 'u' then
              match r2 with
              | h1 :: h2 :: h3 :: h4 :: r3 =>
                match hexVal h1, hexVal h2, hexVal h3, hexVal h4 with
                | some a, some b, some c2, some d =>
                  some (Char.ofNat (((a * 16 + b) * 16 + c2) * 16 + d), r3)
                | _, _, _, _ => none
              | _ => none
            else none
          match dec with
          | none => none
          | some (ch, r) =>
            match parseStringBody fuel r with
            | some (s, r3) => some (ch :: s, r3)
            | none => none
      else if c.toNat < 32 then none
      else
        match parseStringBody fuel rest with
        | some (s, r3) => some (c :: s, r3)
        | none => none
  termination_by structural fuel => fuel

/-- Array elements after `[` (whitespace already skipped); `allowEnd` is true
only before the first element, so `[1,]` is rejected. -/
def parseArrayItems : Nat → Bool → List Char → Option (List Json × List Char)
  | 0, _, _ => none
  | fuel+1, allowEnd, l =>
    match l with
    | ']' :: r => if allowEnd then some ([], r) else none
    | _ =>
      match parseValue fuel l with
      | none => none
      | some (v, r) =>
        match skipWs r with
        | ',' :: r2 =>
          match parseArrayItems fuel false (skipWs r2) with
          | some (vs, r3) => some (v :: vs, r3)
          | none => none
        | ']' :: r2 => some ([v], r2)
        | _ => none
  termination_by structural fuel => fuel

/-- Object members after `{` (whitespace already skipped); `allowEnd` as for
arrays. -/
def parseObjectItems : Nat → Bool → List Char →
    Option (List (String × Json) × List Char)
  | 0, _, _ => none
  | fuel+1, allowEnd, l =>
    match l with
    | '}' :: r => if allowEnd then some ([], r) else none
    | '"' :: r =>
      match parseStringBody fuel r with
      | none => none
      | some (k, r1) =>
        match skipWs r1 with
        | ':' :: r2 =>
          match parseValue fuel r2 with
          | none => none
          | some (v, r3) =>
            match skipWs r3 with
            | ',' :: r4 =>
              match parseObjectItems fuel false (skipWs r4) with
              | some (kvs, r5) => some ((String.mk k, v) :: kvs, r5)
              | none => none
            | '}' :: r4 => some ([(String.mk k, v)], r4)
            | _ => none
        | _ => none
    | _ => none
  termination_by structural fuel => fuel

end

/-- `JSON.parse(s)`: one value, then only trailing whitespace. -/
def jsonParse (s : String) : Option Json :=
  match parseValue (s.data.length + 1) s.data with
  | some (v, rest) => if skipWs rest = [] then some v else none
  | none => none

example : jsonParse "null" = some .null := rfl
example : jsonParse " \x7b\"a\": [1, -2.5e1], \"a\": \"x\"\x7d " =
    some (.obj [("a", .arr [.num 1 0, .num (-25) 0]), ("a", .str "x")]) := rfl
example : jsonParse "hello" = none := rfl
example : jsonParse "\x7b\"a\":1,\x7d" = none := rfl
example : jsonParse "[1" = none := rfl
example : jsonParse "01" = none := rfl
example : jsonParse "\"a\\u0041b\"" = some (.str "aAb") := rfl

/-! ### Fallback extraction

`textResp.match(/\{[\s\S]*\}/)`: the greedy regex spans from the first `{`
(that is followed by some `}`) to the last `}` of the text. -/

def extractBraces (l : List Char) : Option (List Char) :=
  match l.findIdx? (fun c => c = '{') with
  | none => none
  | some i =>
    match l.reverse.findIdx? (fun c => c = '}') with
    | none => none
    | some rj =>
      let j := l.length - 1 - rj
      if i < j then some ((l.drop i).take (j - i + 1)) else none

example : extractBraces "ab\x7bc\x7b\x7dd\x7de".data = some "\x7bc\x7b\x7dd\x7d".data := rfl
example : extractBraces "\x7d\x7b".data = none := rfl
example : extractBraces "abc".data = none := rfl

/-! ### Output normalization (server.js:125-134) -/

structure Bullet where
  type : String
  text : String

structure NormalizedResult where
  summary : Json
  bullets : List Bullet
  rating : Json

/-- `x || d` for a possibly-undefined value `x`. -/
def orDefault (v : Option Json) (d : Json) : Json :=
  match v with
  | some j => if jtruthy j then j else d
  | none => d

/-- `t = (b && b.type) ? String(b.type).toLowerCase() : "con"`
(server.js:131): the short-circuiting `&&` makes the string branch fire only
when both `b` and `b.type` are truthy. -/
def rawTypeString (b : Json) : String :=
  match (if jtruthy b then jfield b "type" else none) with
  | some v => if jtruthy v then jsToLower (jsToString v) else "con"
  | none => "con"

/-- `txt = b && b.text ? String(b.text) : ""` (server.js:132). -/
def rawTextString (b : Json) : String :=
  match (if jtruthy b then jfield b "text" else none) with
  | some v => if jtruthy v then jsToString v else ""
  | none => ""

/-- `t === "pro" ? "pro" : t === "warning" ? "warning" : "con"`
(server.js:133). -/
def enumType (t : String) : String :=
  if t = "pro" then "pro" else if t = "warning" then "warning" else "con"

/-- One element of `bullets.map(...)` (server.js:130-134). -/
def cleanBullet (b : Json) : Bullet :=
  { type := enumType (rawTypeString b), text := rawTextString b }

/-- The normalization block (server.js:125-134).  Property access on `parsed`
throws when `parsed` is `null` (the `getField … = none` case), which the
route's `catch` turns into a 500. -/
def normalize (parsed : Json) : Option NormalizedResult :=
  match getField parsed "summary" with
  | none => none
  | some s0 =>
    match getField parsed "bullets" with
    | none => none
    | some b0 =>
      match getField parsed "rating" with
      | none => none
      | some r0 =>
        some { summary := orDefault s0 (.str "")
             , bullets :=
                 match b0 with
                 | some (.arr xs) => xs.map cleanBullet
                 | _ => []
             , rating := orDefault r0 (.str "Risky") }

/-! ### The route -/

inductive Resp where
  | ok (result : NormalizedResult)
  | err (status : Nat) (error : String)

def internalError : Resp := .err 500 "Internal server error"

/-- `JSON.parse(textResp)` with the brace-extraction fallback
(server.js:113-122).  `none` is the `throw` that the `catch` turns into a
500. -/
def parsePhase (raw : String) : Option Json :=
  match jsonParse raw with
  | some v => some v
  | none =>
    match extractBraces raw.data with
    | some sub => jsonParse (String.mk sub)
    | none => none

/-- The part of the route handler downstream of the upstream call: parse the
completion text, normalize, answer 200, or fall into the catch-all 500. -/
def handleUpstream (raw : String) : Resp :=
  match parsePhase raw with
  | none => internalError
  | some parsed =>
    match normalize parsed with
    | none => internalError
    | some r => .ok r

inductive Lang where
  | en
  | es

/-- `(language === "es") ? "es" : "en"` (server.js:70). -/
def langOf (language : Option Json) : Lang :=
  match language with
  | some (.str s) => if s = "es" then .es else .en
  | _ => .en

inductive Validated where
  | rejected (response : Resp)
  | accepted (safeText : List Char) (lang : Lang)

/-- The admission checks of the route body (server.js:67-76): presence/type
of `text` (a falsy `text`, e.g. the empty string, fails the `!text` check),
the trimmed-length window, then sanitization. -/
def validate (text language : Option Json) : Validated :=
  match text with
  | some (.str s) =>
    if s.data = [] then .rejected (.err 400 "Invalid payload: text required")
    else
      let trimmed := jsTrim s.data
      if trimmed.length < 50 then .rejected (.err 400 "Text too short")
      else if 20000 < trimmed.length then .rejected (.err 400 "Text too long")
      else .accepted (sanitize trimmed) (langOf language)
  | _ => .rejected (.err 400 "Invalid payload: text required")

/-- The whole `POST /summarize` handler given the request's `text` and
`language` fields and the raw upstream completion text.  (The prompt built
from the sanitized text only influences the upstream service, which is a
black box here, so the completion text is a free parameter.) -/
def handleRequest (text language : Option Json) (upstream : String) : Resp :=
  match validate text language with
  | .rejected r => r
  | .accepted _ _ => handleUpstream upstream

/-! ### Rate limiter (server.js:24-29)

`express-rate-limit` with `windowMs: 60000, max: 30`, keyed by client
identity; one client's counter is a hit count plus the end of its current
window. -/

structure LimiterState where
  hits : Nat
  windowEnd : Nat

def limiterMax : Nat := 30

def limiterWindowMs : Nat := 60000

def limiterInit : LimiterState := { hits := 0, windowEnd := limiterWindowMs }

/-- One inbound request at time `t`: if the window has elapsed the counter
restarts; the request passes iff the incremented count is within `max`
(otherwise the middleware answers
`429 { error: "Too many requests, please try again later." }`). -/
def limiterStep (s : LimiterState) (t : Nat) : Bool × LimiterState :=
  let s1 := if s.windowEnd ≤ t then { hits := 0, windowEnd := t + limiterWindowMs } else s
  let h := s1.hits + 1
  (decide (h ≤ limiterMax), { s1 with hits := h })

/-- The pass/reject flags of a sequence of requests at the given times. -/
def runLimiter (s : LimiterState) : List Nat → List Bool
  | [] => []
  | t :: ts =>
    let p := limiterStep s t
    p.1 :: runLimiter p.2 ts

/-- The limiter state after a sequence of requests. -/
def limiterAfter (s : LimiterState) : List Nat → LimiterState
  | [] => s
  | t :: ts => limiterAfter (limiterStep s t).2 ts

example : handleUpstream "null" = internalError := rfl
example : handleUpstream "\x7b\"rating\":\"hello\"\x7d" =
    .ok { summary := .str "", bullets := [], rating := .str "hello" } := rfl
example :
    handleUpstream "Sure, here you go:\n\x7b\"summary\":\"x\",\"bullets\":[],\"rating\":\"Secure\"\x7d" =
    .ok { summary := .str "x", bullets := [], rating := .str "Secure" } := rfl
example : handleUpstream "no braces at all" = internalError := rfl
example : runLimiter limiterInit (List.replicate 3 0) = [true, true, true] := rfl

/-! ## Helper lemmas -/

/-- `findIdx?` finds nothing when no element satisfies the predicate. -/
theorem findIdx_eq_none_of_not_mem {c : Char} {l : List Char}
    (h : c ∉ l) : l.findIdx? (fun x => x = c) = none := by
  rw [List.findIdx?_eq_none_iff]
  intro x hx
  simp only [decide_eq_false_iff_not]
  intro hxc; exact h (hxc ▸ hx)

/-- `handleUpstream` never answers a 400. -/
theorem handleUpstream_not_400 (raw : String) (msg : String) :
    handleUpstream raw ≠ Resp.err 400 msg := by
  unfold handleUpstream
  cases hp : parsePhase raw with
  | none => simp [internalError]
  | some parsed =>
    cases hn : normalize parsed with
    | none => simp [hn, internalError]
    | some r => simp [hn]

example : (Json.str "a" ≠ Json.str "b") := by simp
example : (Resp.err 500 "x" ≠ Resp.err 400 "y") := by simp

/-- For every non-`null` value, property access succeeds and agrees with
`jfield`. -/
theorem getField_of_ne_null {parsed : Json} (h : parsed ≠ Json.null) (k : String) :
    getField parsed k = some (jfield parsed k) := by
  cases parsed <;> first | exact absurd rfl h | rfl

/-- Closed form of `normalize` away from `null`. -/
theorem normalize_of_ne_null {parsed : Json} (h : parsed ≠ Json.null) :
    normalize parsed =
      some { summary := orDefault (jfield parsed "summary") (.str "")
           , bullets :=
               match jfield parsed "bullets" with
               | some (.arr xs) => xs.map cleanBullet
               | _ => []
           , rating := orDefault (jfield parsed "rating") (.str "Risky") } := by
  cases parsed <;> first | exact absurd rfl h | rfl

/-! ## Claims -/

/-- The closed rating enumeration of the spec, as a decidable check. -/
def ratingEnumB : Json → Bool
  | .str s => s = "Secure" || s = "Risky" || s = "Not secure"
  | _ => false

/-- C1 (counterexample): an upstream object whose `rating` is the truthy
string `"hello"` reaches the 200 response with `rating` equal to `"hello"`,
which is outside the three-string enumeration — `parsed.rating || "Risky"`
passes any truthy value through. -/
theorem C1_counterexample :
    handleUpstream "\x7b\"rating\":\"hello\"\x7d" =
      Resp.ok { summary := .str "", bullets := [], rating := .str "hello" } ∧
    ratingEnumB (Json.str "hello") = false :=
  ⟨rfl, rfl⟩

/-- C1 (amended): for every 200 response, the returned `rating` is never
absent: it is the conservative default `"Risky"`, or else exactly the
(truthy) upstream `rating` value — whatever that value is.  It lies in the
three-string enumeration whenever the upstream rating does or is falsy. -/
theorem C1_rating_passthrough (parsed : Json) (r : NormalizedResult)
    (h : normalize parsed = some r) :
    r.rating = Json.str "Risky" ∨
    ∃ v, getField parsed "rating" = some (some v) ∧ jtruthy v = true ∧
      r.rating = v := by
  by_cases hnull : parsed = Json.null
  · rw [hnull] at h; exact absurd h (by simp [normalize, getField])
  · rw [normalize_of_ne_null hnull] at h
    injection h with h2
    cases hv : jfield parsed "rating" with
    | none => left; rw [← h2]; simp [orDefault, hv]
    | some v =>
      by_cases ht : jtruthy v
      · right
        exact ⟨v, by rw [getField_of_ne_null hnull, hv], ht,
          by rw [← h2]; simp [orDefault, hv, ht]⟩
      · left; rw [← h2]; simp [orDefault, hv, ht]

/-- C1 witness: instantiated at `{"rating": "Secure"}`. -/
theorem C1_witness :
    Json.str "Secure" = Json.str "Risky" ∨
    ∃ v, getField (Json.obj [("rating", Json.str "Secure")]) "rating" =
        some (some v) ∧ jtruthy v = true ∧ Json.str "Secure" = v :=
  C1_rating_passthrough (Json.obj [("rating", Json.str "Secure")])
    { summary := .str "", bullets := [], rating := .str "Secure" } rfl

/-- C2 (counterexample): normalization is not total — on the parsed value
`null` (which `JSON.parse` produces for the upstream text `"null"`) the
property access `parsed.summary` throws, and the endpoint answers 500. -/
theorem C2_counterexample :
    normalize Json.null = none ∧
    handleUpstream "null" = Resp.err 500 "Internal server error" :=
  ⟨rfl, rfl⟩

/-- C2 (amended): normalization is total on every parsed value except
`null`: for every other JSON value (booleans, numbers, strings, arrays,
arbitrary objects) it returns a well-formed result. -/
theorem C2_normalize_total_off_null (parsed : Json) (h : parsed ≠ Json.null) :
    ∃ r, normalize parsed = some r := by
  cases parsed with
  | null => exact absurd rfl h
  | bool b => exact ⟨_, rfl⟩
  | num m e => exact ⟨_, rfl⟩
  | str s => exact ⟨_, rfl⟩
  | arr xs => exact ⟨_, rfl⟩
  | obj kvs => exact ⟨_, rfl⟩

/-- C2 witness: instantiated at the empty object. -/
theorem C2_witness : ∃ r, normalize (Json.obj []) = some r :=
  C2_normalize_total_off_null (Json.obj []) (by simp)

/-- C5: the response parser first tries `JSON.parse` on the raw text and
returns that parse on success; only on failure does it parse the greedy
first-`{`-to-last-`}` substring; and on the documented example the pipeline
returns `{summary: "x", bullets: [], rating: "Secure"}`. -/
theorem C5_parse_order_and_recovery :
    (∀ (raw : String) (v : Json), jsonParse raw = some v → parsePhase raw = some v) ∧
    (∀ raw : String, jsonParse raw = none →
      parsePhase raw =
        match extractBraces raw.data with
        | some sub => jsonParse (String.mk sub)
        | none => none) ∧
    handleUpstream "Sure, here you go:\n\x7b\"summary\":\"x\",\"bullets\":[],\"rating\":\"Secure\"\x7d" =
      Resp.ok { summary := .str "x", bullets := [], rating := .str "Secure" } := by
  refine ⟨?_, ?_, rfl⟩
  · intro raw v h; unfold parsePhase; rw [h]
  · intro raw h; unfold parsePhase; rw [h]

/-- C5 witness: the direct-parse branch instantiated at `"null"`. -/
theorem C5_witness : parsePhase "null" = some Json.null :=
  C5_parse_order_and_recovery.1 "null" Json.null rfl

/-- C6: when the upstream completion text contains no brace at all and is
not itself valid JSON, the endpoint answers exactly
`500 { error: "Internal server error" }`. -/
theorem C6_no_braces_500 (raw : String)
    (h1 : '{' ∉ raw.data) (_h2 : '}' ∉ raw.data)
    (h3 : jsonParse raw = none) :
    handleUpstream raw = Resp.err 500 "Internal server error" := by
  unfold handleUpstream parsePhase extractBraces
  rw [h3, findIdx_eq_none_of_not_mem h1]
  rfl

/-- C6 witness: instantiated at a braceless upstream reply. -/
theorem C6_witness :
    handleUpstream "I cannot answer that." = Resp.err 500 "Internal server error" :=
  C6_no_braces_500 "I cannot answer that." (by decide) (by decide) rfl

/-- C10: a request whose `text` field is present but equal to the empty
string receives `400 { error: "Invalid payload: text required" }` — not the
"Text too short" error — because the `!text` presence check treats every
falsy `text` as absent. -/
theorem C10_empty_text_invalid_payload (language : Option Json) (upstream : String) :
    handleRequest (some (.str "")) language upstream =
      Resp.err 400 "Invalid payload: text required" ∧
    handleRequest (some (.str "")) language upstream ≠
      Resp.err 400 "Text too short" := by
  refine ⟨rfl, ?_⟩
  intro h
  rw [show handleRequest (some (.str "")) language upstream =
        Resp.err 400 "Invalid payload: text required" from rfl] at h
  simp at h

/-- C10 witness: instantiated at a concrete request. -/
theorem C10_witness :
    handleRequest (some (.str "")) none "x" =
      Resp.err 400 "Invalid payload: text required" :=
  (C10_empty_text_invalid_payload none "x").1

/-! ### C7: bullet normalization -/

/-- Claim-side reading of "the element's `type`, lower-cased": the
stringified, lower-cased `type` member, when the element has one. -/
def elemTypeLower (b : Json) : Option String :=
  (jfield b "type").map (fun v => jsToLower (jsToString v))

/-- The stringification of a falsy JSON value never lower-cases to `"pro"`
or `"warning"` (it is `"null"`, `"false"`, a digit string, or empty). -/
theorem falsy_lower_ne {v : Json} (h : jtruthy v = false) :
    jsToLower (jsToString v) ≠ "pro" ∧ jsToLower (jsToString v) ≠ "warning" := by
  cases v with
  | null =>
    rw [show jsToString .null = "null" from by simp [jsToString]]
    exact ⟨by decide, by decide⟩
  | bool b =>
    cases b with
    | true => simp [jtruthy] at h
    | false =>
      rw [show jsToString (.bool false) = "false" from by simp [jsToString]]
      exact ⟨by decide, by decide⟩
  | num m e =>
    have hm : m = 0 := by simpa [jtruthy] using h
    subst hm
    rw [show jsToString (.num 0 e) = numToString 0 e from by simp [jsToString]]
    have h0 : (toString (0 : Nat)).data = ['0'] := rfl
    have hd : ∃ l, (numToString 0 e).data = '0' :: l := by
      cases e with
      | ofNat n =>
        exact ⟨List.replicate n '0', by simp [numToString, Int.natAbs_zero, h0]⟩
      | negSucc n =>
        refine ⟨'.' :: (List.replicate n '0' ++ ['0']), ?_⟩
        simp [numToString, Int.natAbs_zero, h0]
    obtain ⟨l, hl⟩ := hd
    have key : ∀ t : String, jsToLower (numToString 0 e) = t → t.data.headI = '0' := by
      intro t hc
      have hdata : (jsToLower (numToString 0 e)).data = t.data := congrArg String.data hc
      rw [jsToLower] at hdata
      simp only [hl, List.map_cons] at hdata
      rw [← hdata]
      rfl
    exact ⟨fun hc => absurd (key _ hc) (by decide),
           fun hc => absurd (key _ hc) (by decide)⟩
  | str s =>
    have hs : s.data = [] := by simpa [jtruthy] using h
    rw [show jsToString (.str s) = s from by simp [jsToString]]
    rw [jsToLower, hs]
    exact ⟨by decide, by decide⟩
  | arr xs => simp [jtruthy] at h
  | obj kvs => simp [jtruthy] at h

/-- A falsy value is never an object, so its `type` member is absent. -/
theorem jfield_of_falsy {b : Json} (h : jtruthy b = false) (k : String) :
    jfield b k = none := by
  cases b with
  | arr xs => simp [jtruthy] at h
  | obj kvs => simp [jtruthy] at h
  | null => rfl
  | bool x => rfl
  | num m e => rfl
  | str s => rfl

/-- The enum mapping only produces the three bullet kinds. -/
theorem enumType_cases (t : String) :
    enumType t = "pro" ∨ enumType t = "con" ∨ enumType t = "warning" := by
  unfold enumType
  by_cases h1 : t = "pro"
  · left; simp [h1]
  · by_cases h2 : t = "warning"
    · right; right; simp [h1, h2]
    · right; left; simp [h1, h2]

/-- C7: every returned bullet's `type` lies in {pro, con, warning}; the
`type` is `"pro"`/`"warning"` exactly when the element's stringified,
lower-cased `type` matches, and `"con"` otherwise; `text` is the empty
string when the element has no `text`; and a non-array `bullets` yields the
empty bullet list. -/
theorem C7_bullets_shape :
    (∀ (parsed : Json) (r : NormalizedResult), normalize parsed = some r →
        ∀ b ∈ r.bullets,
          b.type = "pro" ∨ b.type = "con" ∨ b.type = "warning") ∧
    (∀ bj : Json,
        (cleanBullet bj).type =
          (match elemTypeLower bj with
           | some t =>
             if t = "pro" then "pro" else if t = "warning" then "warning" else "con"
           | none => "con") ∧
        (jfield bj "text" = none → (cleanBullet bj).text = "")) ∧
    (∀ (parsed : Json) (r : NormalizedResult), normalize parsed = some r →
        (∀ xs : List Json, jfield parsed "bullets" ≠ some (.arr xs)) →
        r.bullets = []) := by
  refine ⟨?_, ?_, ?_⟩
  · intro parsed r h b hb
    by_cases hn : parsed = Json.null
    · rw [hn] at h; exact absurd h (by simp [normalize, getField])
    · rw [normalize_of_ne_null hn] at h
      injection h with h2
      rw [← h2] at hb
      rcases hf : jfield parsed "bullets" with _ | v
      · rw [hf] at hb
        simp at hb
      · rw [hf] at hb
        rcases v with _ | x | ⟨x, y⟩ | x | xs | kvs
        · simp at hb
        · simp at hb
        · simp at hb
        · simp at hb
        · simp only [List.mem_map] at hb
          obtain ⟨a, _, ha⟩ := hb
          rw [← ha]
          exact enumType_cases (rawTypeString a)
        · simp at hb
  · intro bj
    constructor
    · show enumType (rawTypeString bj) = _
      by_cases hb : jtruthy bj = true
      · rcases hf : jfield bj "type" with _ | v
        · simp [rawTypeString, hb, hf, elemTypeLower, enumType]
        · by_cases hv : jtruthy v = true
          · simp [rawTypeString, hb, hf, hv, elemTypeLower, enumType]
          · have hv2 : jtruthy v = false := by simpa using hv
            obtain ⟨h1, h2⟩ := falsy_lower_ne hv2
            simp [rawTypeString, hb, hf, hv2, elemTypeLower, enumType, h1, h2]
      · have hb2 : jtruthy bj = false := by simpa using hb
        have hf := jfield_of_falsy hb2 "type"
        simp [rawTypeString, hb2, hf, elemTypeLower, enumType]
    · intro hf
      show rawTextString bj = ""
      simp [rawTextString, hf]
  · intro parsed r h hnotarr
    by_cases hn : parsed = Json.null
    · rw [hn] at h; exact absurd h (by simp [normalize, getField])
    · rw [normalize_of_ne_null hn] at h
      injection h with h2
      rw [← h2]
      show (match jfield parsed "bullets" with
            | some (.arr xs) => xs.map cleanBullet
            | _ => []) = []
      rcases hf : jfield parsed "bullets" with _ | v
      · rfl
      · rcases v with _ | x | ⟨x, y⟩ | x | xs | kvs
        · rfl
        · rfl
        · rfl
        · rfl
        · exact absurd hf (hnotarr xs)
        · rfl

/-- C7 witness: the bullet produced from the element `{}` inside
`{"bullets": [{}]}`. -/
theorem C7_witness :
    (Bullet.mk "con" "").type = "pro" ∨ (Bullet.mk "con" "").type = "con" ∨
      (Bullet.mk "con" "").type = "warning" :=
  C7_bullets_shape.1 (Json.obj [("bullets", Json.arr [Json.obj []])])
    { summary := .str "", bullets := [Bullet.mk "con" ""], rating := .str "Risky" }
    rfl (Bullet.mk "con" "") (by simp)

/-! ### C9 / C3: the length checks -/

/-- Closed form of `validate` on a non-empty string `text`. -/
theorem validate_str (s : String) (language : Option Json) (hne : s.data ≠ []) :
    validate (some (.str s)) language =
      (if (jsTrim s.data).length < 50 then
         Validated.rejected (.err 400 "Text too short")
       else if 20000 < (jsTrim s.data).length then
         Validated.rejected (.err 400 "Text too long")
       else Validated.accepted (sanitize (jsTrim s.data)) (langOf language)) := by
  unfold validate
  simp [hne]

/-- C9: a `text` whose trimmed length is exactly 49 is rejected with
`400 { error: "Text too short" }`; at exactly 50 it passes validation and is
accepted; and (for a non-empty string `text`, so that the presence check is
passed) the short rejection fires exactly when the trimmed length is below
50. -/
theorem C9_short_boundary :
    (∀ (s : String) (language : Option Json) (upstream : String),
        (jsTrim s.data).length = 49 →
        handleRequest (some (.str s)) language upstream =
          Resp.err 400 "Text too short") ∧
    (∀ (s : String) (language : Option Json),
        (jsTrim s.data).length = 50 →
        validate (some (.str s)) language =
          Validated.accepted (sanitize (jsTrim s.data)) (langOf language)) ∧
    (∀ (s : String) (language : Option Json) (upstream : String), s.data ≠ [] →
        (handleRequest (some (.str s)) language upstream =
            Resp.err 400 "Text too short" ↔
          (jsTrim s.data).length < 50)) := by
  refine ⟨?_, ?_, ?_⟩
  · intro s language upstream h49
    have hne : s.data ≠ [] := by
      intro h0; rw [h0] at h49; simp [jsTrim] at h49
    unfold handleRequest
    rw [validate_str s language hne, if_pos (by omega)]
  · intro s language h50
    have hne : s.data ≠ [] := by
      intro h0; rw [h0] at h50; simp [jsTrim] at h50
    rw [validate_str s language hne, if_neg (by omega), if_neg (by omega)]
  · intro s language upstream hne
    constructor
    · intro hresp
      by_contra hge
      unfold handleRequest at hresp
      rw [validate_str s language hne, if_neg hge] at hresp
      by_cases hlong : 20000 < (jsTrim s.data).length
      · rw [if_pos hlong] at hresp
        simp at hresp
      · rw [if_neg hlong] at hresp
        exact handleUpstream_not_400 upstream _ hresp
    · intro hlt
      unfold handleRequest
      rw [validate_str s language hne, if_pos hlt]

/-- C9 witness: 49 `a`s are rejected as too short. -/
theorem C9_witness :
    handleRequest (some (.str (String.mk (List.replicate 49 'a')))) none "x" =
      Resp.err 400 "Text too short" :=
  C9_short_boundary.1 (String.mk (List.replicate 49 'a')) none "x" (by decide)

theorem dropWhile_replicate_append_of_true {p : Char → Bool} {c : Char}
    (hp : p c = true) (n : Nat) (l : List Char) :
    List.dropWhile p (List.replicate n c ++ l) = List.dropWhile p l := by
  induction n with
  | zero => simp
  | succ n ih => simp [List.replicate_succ, List.dropWhile_cons, hp, ih]

theorem dropWhile_replicate_append_of_false {p : Char → Bool} {c : Char}
    (hp : p c = false) {n : Nat} (hn : n ≠ 0) (l : List Char) :
    List.dropWhile p (List.replicate n c ++ l) = List.replicate n c ++ l := by
  cases n with
  | zero => exact absurd rfl hn
  | succ n => simp [List.replicate_succ, List.dropWhile_cons, hp]

theorem dropWhile_replicate_of_false {p : Char → Bool} {c : Char}
    (hp : p c = false) (n : Nat) :
    List.dropWhile p (List.replicate n c) = List.replicate n c := by
  cases n with
  | zero => rfl
  | succ n => simp [List.replicate_succ, List.dropWhile_cons, hp]

/-- The C3 counterexample input: 50 `a`s followed by 20001 spaces — its raw
length 20051 exceeds 20000, but its trimmed length is 50. -/
def c3Text : List Char := List.replicate 50 'a' ++ List.replicate 20001 ' '

theorem c3_trim : jsTrim c3Text = List.replicate 50 'a' := by
  unfold jsTrim c3Text
  rw [dropWhile_replicate_append_of_false (by decide) (by decide),
      List.reverse_append, List.reverse_replicate, List.reverse_replicate,
      dropWhile_replicate_append_of_true (by decide),
      dropWhile_replicate_of_false (by decide), List.reverse_replicate]

/-- C3 (counterexample): the claim ties the "Text too long" rejection to the
*raw* (untrimmed) length exceeding 20000.  This input has raw length
20051 > 20000, yet the endpoint does not answer "Text too long" — it passes
validation (trimmed length 50) and proceeds to the upstream phase (here a
500, the upstream text being unparseable). -/
theorem C3_counterexample :
    20000 < (String.mk c3Text).data.length ∧
    handleRequest (some (.str (String.mk c3Text))) none "x" =
      Resp.err 500 "Internal server error" := by
  have hlen : c3Text.length = 20051 := by
    rw [c3Text, List.length_append, List.length_replicate, List.length_replicate]
  constructor
  · show 20000 < c3Text.length
    omega
  · have hne : (String.mk c3Text).data ≠ [] := by
      show c3Text ≠ []
      intro h0
      rw [h0] at hlen
      simp at hlen
    unfold handleRequest
    rw [validate_str _ none hne]
    rw [show (String.mk c3Text).data = c3Text from rfl, c3_trim]
    rw [if_neg (by simp), if_neg (by simp)]
    rfl

/-- C3 (amended): the "Text too long" rejection fires exactly when the
*trimmed* length of `text` exceeds 20000 (the raw length never enters the
check); inputs with trimmed length at most 20000 are never rejected as too
long — past the cap the sanitizer truncates instead. -/
theorem C3_long_iff_trimmed (s : String) (language : Option Json) (upstream : String) :
    handleRequest (some (.str s)) language upstream = Resp.err 400 "Text too long" ↔
      20000 < (jsTrim s.data).length := by
  by_cases hne : s.data = []
  · constructor
    · intro hresp
      unfold handleRequest validate at hresp
      simp [hne] at hresp
    · intro hlt
      rw [hne] at hlt
      simp [jsTrim] at hlt
  · constructor
    · intro hresp
      unfold handleRequest at hresp
      rw [validate_str s language hne] at hresp
      by_cases hshort : (jsTrim s.data).length < 50
      · rw [if_pos hshort] at hresp
        simp at hresp
      · rw [if_neg hshort] at hresp
        by_cases hlong : 20000 < (jsTrim s.data).length
        · exact hlong
        · rw [if_neg hlong] at hresp
          exact absurd hresp (handleUpstream_not_400 upstream _)
    · intro hlong
      unfold handleRequest
      rw [validate_str s language hne, if_neg (by omega), if_pos hlong]

/-- C3 witness: 20001 `a`s (trimmed length 20001 > 20000) are rejected as
too long. -/
theorem C3_witness :
    handleRequest (some (.str (String.mk (List.replicate 20001 'a')))) none "x" =
      Resp.err 400 "Text too long" := by
  refine (C3_long_iff_trimmed (String.mk (List.replicate 20001 'a')) none "x").mpr ?_
  rw [show (String.mk (List.replicate 20001 'a')).data = List.replicate 20001 'a' from rfl]
  rw [jsTrim, dropWhile_replicate_of_false (by decide), List.reverse_replicate,
      dropWhile_replicate_of_false (by decide), List.reverse_replicate,
      List.length_replicate]
  omega

/-! ### C8: rate limiting -/

theorem limiterStep_inWindow {h w t : Nat} (ht : t < w) :
    limiterStep { hits := h, windowEnd := w } t =
      (decide (h + 1 ≤ limiterMax), { hits := h + 1, windowEnd := w }) := by
  unfold limiterStep
  rw [if_neg (show ¬(({ hits := h, windowEnd := w } : LimiterState).windowEnd ≤ t) from by
        show ¬(w ≤ t); omega)]

theorem runLimiter_append (s : LimiterState) (ts1 ts2 : List Nat) :
    runLimiter s (ts1 ++ ts2) =
      runLimiter s ts1 ++ runLimiter (limiterAfter s ts1) ts2 := by
  induction ts1 generalizing s with
  | nil => rfl
  | cons t ts ih => simp [runLimiter, limiterAfter, ih]

theorem limiterAfter_append (s : LimiterState) (ts1 ts2 : List Nat) :
    limiterAfter s (ts1 ++ ts2) = limiterAfter (limiterAfter s ts1) ts2 := by
  induction ts1 generalizing s with
  | nil => rfl
  | cons t ts ih => simp [limiterAfter, ih]

/-- While the window has not elapsed and the count stays within `max`, every
request passes and the counter just accumulates. -/
theorem runLimiter_true_of_le :
    ∀ (ts : List Nat) (h w : Nat), (∀ t ∈ ts, t < w) →
      h + ts.length ≤ limiterMax →
      runLimiter { hits := h, windowEnd := w } ts = List.replicate ts.length true ∧
      limiterAfter { hits := h, windowEnd := w } ts =
        { hits := h + ts.length, windowEnd := w }
  | [], h, w, _, _ => ⟨rfl, by simp [limiterAfter]⟩
  | t :: ts, h, w, hb, hle => by
    have ht : t < w := hb t (List.mem_cons_self t ts)
    have step := limiterStep_inWindow (h := h) (w := w) ht
    have hle2 : h + 1 + ts.length ≤ limiterMax := by
      have h3 : (t :: ts).length = ts.length + 1 := rfl
      omega
    obtain ⟨ih1, ih2⟩ := runLimiter_true_of_le ts (h + 1) w
      (fun x hx => hb x (List.mem_cons_of_mem t hx)) hle2
    constructor
    · show (limiterStep ⟨h, w⟩ t).1 :: runLimiter (limiterStep ⟨h, w⟩ t).2 ts = _
      have hd : h + 1 ≤ limiterMax := by omega
      simp [step, hd, ih1, List.replicate_succ]
    · show limiterAfter (limiterStep ⟨h, w⟩ t).2 ts = _
      rw [step]
      show limiterAfter ⟨h + 1, w⟩ ts = _
      rw [ih2]
      show ({ hits := h + 1 + ts.length, windowEnd := w } : LimiterState) =
        { hits := h + (t :: ts).length, windowEnd := w }
      have h3 : h + (t :: ts).length = h + 1 + ts.length := by
        have h4 : (t :: ts).length = ts.length + 1 := rfl
        omega
      rw [h3]

/-- Once the count has reached `max` inside a window, every further request
in that window is rejected. -/
theorem runLimiter_false_of_ge :
    ∀ (ts : List Nat) (h w : Nat), (∀ t ∈ ts, t < w) → limiterMax ≤ h →
      runLimiter { hits := h, windowEnd := w } ts =
        List.replicate ts.length false
  | [], _, _, _, _ => rfl
  | t :: ts, h, w, hb, hge => by
    have ht : t < w := hb t (List.mem_cons_self t ts)
    have step := limiterStep_inWindow (h := h) (w := w) ht
    have ih := runLimiter_false_of_ge ts (h + 1) w
      (fun x hx => hb x (List.mem_cons_of_mem t hx)) (by omega)
    show (limiterStep ⟨h, w⟩ t).1 :: runLimiter (limiterStep ⟨h, w⟩ t).2 ts = _
    have hd : ¬ (h + 1 ≤ limiterMax) := by omega
    simp [step, hd, ih, List.replicate_succ]

/-- C8: starting from a fresh counter, of 31 requests inside one 60-second
window exactly the first 30 pass and the 31st is rejected; afterwards any
further request still inside the window is rejected, while the first request
at or past the window's end passes again. -/
theorem C8_rate_limit_window (ts : List Nat)
    (hlen : ts.length = 31) (hwin : ∀ t ∈ ts, t < limiterWindowMs) :
    runLimiter limiterInit ts = List.replicate 30 true ++ [false] ∧
    (∀ t, t < limiterWindowMs →
      (limiterStep (limiterAfter limiterInit ts) t).1 = false) ∧
    (∀ t, limiterWindowMs ≤ t →
      (limiterStep (limiterAfter limiterInit ts) t).1 = true) := by
  have hsplit : ts.take 30 ++ ts.drop 30 = ts := List.take_append_drop 30 ts
  have hlen1 : (ts.take 30).length = 30 := by rw [List.length_take]; omega
  have hlen2 : (ts.drop 30).length = 1 := by rw [List.length_drop]; omega
  have hw1 : ∀ t ∈ ts.take 30, t < limiterWindowMs :=
    fun t ht => hwin t (List.take_subset _ _ ht)
  have hw2 : ∀ t ∈ ts.drop 30, t < limiterWindowMs :=
    fun t ht => hwin t (List.drop_subset _ _ ht)
  obtain ⟨t1, hdrop⟩ := List.length_eq_one.mp hlen2
  have ht1 : t1 < limiterWindowMs := hw2 t1 (by rw [hdrop]; exact List.mem_singleton_self t1)
  obtain ⟨h1, h2⟩ := runLimiter_true_of_le (ts.take 30) 0 limiterWindowMs hw1
    (by rw [hlen1]; decide)
  have hinit : limiterInit = { hits := 0, windowEnd := limiterWindowMs } := rfl
  have hafter : limiterAfter limiterInit ts = { hits := 31, windowEnd := limiterWindowMs } := by
    rw [← hsplit, limiterAfter_append, hinit, h2, hlen1, hdrop]
    show (limiterStep ⟨0 + 30, limiterWindowMs⟩ t1).2 = _
    rw [limiterStep_inWindow ht1]
  refine ⟨?_, ?_, ?_⟩
  · rw [← hsplit, runLimiter_append, hinit, h1, hlen1, h2, hlen1, hdrop]
    show List.replicate 30 true ++
        ((limiterStep ⟨0 + 30, limiterWindowMs⟩ t1).1 ::
          runLimiter (limiterStep ⟨0 + 30, limiterWindowMs⟩ t1).2 []) = _
    rw [limiterStep_inWindow ht1]
    rfl
  · intro t ht
    rw [hafter, limiterStep_inWindow ht]
    rfl
  · intro t ht
    rw [hafter]
    unfold limiterStep
    rw [if_pos ht]
    rfl

/-- C8 witness: 31 immediate requests from one fresh client. -/
theorem C8_witness :
    runLimiter limiterInit (List.replicate 31 0) =
      List.replicate 30 true ++ [false] :=
  (C8_rate_limit_window (List.replicate 31 0) (by simp)
    (fun t ht => by rw [List.eq_of_mem_replicate ht]; decide)).1

/-! ### C4: sanitization -/

theorem escChar_mem_ne {c x : Char} (hx : x ∈ escChar c) : x ≠ '<' ∧ x ≠ '>' := by
  unfold escChar at hx
  split_ifs at hx with h1 h2 h3 h4 h5 h6 h7 h8
  · exact ⟨fun he => absurd (he ▸ hx) (by decide), fun he => absurd (he ▸ hx) (by decide)⟩
  · exact ⟨fun he => absurd (he ▸ hx) (by decide), fun he => absurd (he ▸ hx) (by decide)⟩
  · exact ⟨fun he => absurd (he ▸ hx) (by decide), fun he => absurd (he ▸ hx) (by decide)⟩
  · exact ⟨fun he => absurd (he ▸ hx) (by decide), fun he => absurd (he ▸ hx) (by decide)⟩
  · exact ⟨fun he => absurd (he ▸ hx) (by decide), fun he => absurd (he ▸ hx) (by decide)⟩
  · exact ⟨fun he => absurd (he ▸ hx) (by decide), fun he => absurd (he ▸ hx) (by decide)⟩
  · exact ⟨fun he => absurd (he ▸ hx) (by decide), fun he => absurd (he ▸ hx) (by decide)⟩
  · exact ⟨fun he => absurd (he ▸ hx) (by decide), fun he => absurd (he ▸ hx) (by decide)⟩
  · have hx2 : x = c := List.mem_singleton.mp hx
    subst hx2
    exact ⟨h4, h5⟩

theorem escChar_ne_nil (c : Char) : escChar c ≠ [] := by
  unfold escChar
  split_ifs <;> simp

/-- A character that is one of the eight escaped ones yields its entity;
anything else (in particular `'&'`-free output) passes through. -/
theorem escChar_cases (c : Char) :
    escChar c ∈ entities ∨ (escChar c = [c] ∧ c ≠ '&') := by
  unfold escChar
  split_ifs with h1 h2 h3 h4 h5 h6 h7 h8
  · left; decide
  · left; decide
  · left; decide
  · left; decide
  · left; decide
  · left; decide
  · left; decide
  · left; decide
  · right; exact ⟨rfl, h1⟩

theorem escChar_of_space {c : Char} (hc : isJsSpace c = true) : escChar c = [c] := by
  unfold escChar
  split_ifs with h1 h2 h3 h4 h5 h6 h7 h8 <;>
    first
      | rfl
      | (subst_vars; exact absurd hc (by decide))

theorem escChar_nonspace {c : Char} (hc : isJsSpace c = false) :
    ∀ x ∈ escChar c, isJsSpace x = false := by
  intro x hx
  unfold escChar at hx
  split_ifs at hx with h1 h2 h3 h4 h5 h6 h7 h8 <;>
    first
      | (fin_cases hx <;> decide)
      | (rw [List.mem_singleton.mp hx]; exact hc)

theorem escapeHtml_append (l1 l2 : List Char) :
    escapeHtml (l1 ++ l2) = escapeHtml l1 ++ escapeHtml l2 := by
  induction l1 with
  | nil => rfl
  | cons c cs ih => simp [escapeHtml, ih]

theorem escapeHtml_mem_ne {x : Char} {l : List Char} (hx : x ∈ escapeHtml l) :
    x ≠ '<' ∧ x ≠ '>' := by
  induction l with
  | nil => simp [escapeHtml] at hx
  | cons c cs ih =>
    rw [escapeHtml] at hx
    rcases List.mem_append.mp hx with h | h
    · exact escChar_mem_ne h
    · exact ih h

theorem escapeHtml_nonspace {l : List Char} (h : ∀ x ∈ l, isJsSpace x = false) :
    ∀ x ∈ escapeHtml l, isJsSpace x = false := by
  induction l with
  | nil => intro x hx; simp [escapeHtml] at hx
  | cons c cs ih =>
    intro x hx
    rw [escapeHtml] at hx
    rcases List.mem_append.mp hx with h2 | h2
    · exact escChar_nonspace (h c (List.mem_cons_self c cs)) x h2
    · exact ih (fun y hy => h y (List.mem_cons_of_mem c hy)) x h2

theorem collapseAux_mem {x : Char} (l : List Char) :
    ∀ b, x ∈ collapseAux b l → x = ' ' ∨ x ∈ l := by
  induction l with
  | nil => intro b hx; simp [collapseAux] at hx
  | cons c cs ih =>
    intro b hx
    rw [collapseAux] at hx
    by_cases hc : isJsSpace c = true
    · rw [if_pos hc] at hx
      cases b with
      | true =>
        rcases ih true hx with h | h
        · exact Or.inl h
        · exact Or.inr (List.mem_cons_of_mem c h)
      | false =>
        rcases List.mem_cons.mp hx with h | h
        · exact Or.inl h
        · rcases ih true h with h2 | h2
          · exact Or.inl h2
          · exact Or.inr (List.mem_cons_of_mem c h2)
    · rw [if_neg hc] at hx
      rcases List.mem_cons.mp hx with h | h
      · exact Or.inr (h ▸ List.mem_cons_self c cs)
      · rcases ih false h with h2 | h2
        · exact Or.inl h2
        · exact Or.inr (List.mem_cons_of_mem c h2)

theorem collapseAux_of_nonspace {l : List Char} (h : ∀ x ∈ l, isJsSpace x = false) :
    collapseAux false l = l := by
  induction l with
  | nil => rfl
  | cons c cs ih =>
    rw [collapseAux, if_neg (by rw [h c (List.mem_cons_self c cs)]; simp)]
    rw [ih (fun y hy => h y (List.mem_cons_of_mem c hy))]

/-- Collapsing walks through a non-empty whitespace-free prefix untouched,
resetting the in-run flag. -/
theorem collapseAux_nonspace_append {p : List Char}
    (hp : ∀ x ∈ p, isJsSpace x = false) (hne : p ≠ []) (b : Bool) (rest : List Char) :
    collapseAux b (p ++ rest) = p ++ collapseAux false rest := by
  induction p generalizing b with
  | nil => exact absurd rfl hne
  | cons x xs ih =>
    have hx : isJsSpace x = false := hp x (List.mem_cons_self x xs)
    rw [List.cons_append, collapseAux, if_neg (by rw [hx]; simp)]
    by_cases hxs : xs = []
    · subst hxs; rfl
    · rw [ih (fun y hy => hp y (List.mem_cons_of_mem x hy)) hxs false]
      rfl

theorem properEsc_cons_nonamp {c : Char} (hc : c ≠ '&') (l : List Char) :
    properEsc (c :: l) = properEsc l := by
  rw [properEsc, if_neg hc]
  simp

theorem properEsc_nonamp_append {p : List Char} (hp : ∀ x ∈ p, x ≠ '&')
    (rest : List Char) : properEsc (p ++ rest) = properEsc rest := by
  induction p with
  | nil => rfl
  | cons c cs ih =>
    rw [List.cons_append, properEsc_cons_nonamp (hp c (List.mem_cons_self c cs))]
    exact ih (fun y hy => hp y (List.mem_cons_of_mem c hy))

theorem isPrefixOf_append_self (p l : List Char) : p.isPrefixOf (p ++ l) = true := by
  induction p with
  | nil => simp [List.isPrefixOf]
  | cons c cs ih => simp [List.isPrefixOf, ih]

theorem startsEntity_of_mem {e : List Char} (he : e ∈ entities) (rest : List Char) :
    startsEntity (e ++ rest) = true := by
  unfold startsEntity
  rw [List.any_eq_true]
  exact ⟨e, he, isPrefixOf_append_self e rest⟩

/-- Scanning a complete entity succeeds and continues after it (entities
contain `'&'` only in head position). -/
theorem properEsc_entity_append {e : List Char} (he : e ∈ entities)
    (rest : List Char) : properEsc (e ++ rest) = properEsc rest := by
  have hst : startsEntity (e ++ rest) = true := startsEntity_of_mem he rest
  have hsplit : ∃ tl, e = '&' :: tl ∧ ∀ x ∈ tl, x ≠ '&' := by
    fin_cases he
    · exact ⟨_, rfl, by decide⟩
    · exact ⟨_, rfl, by decide⟩
    · exact ⟨_, rfl, by decide⟩
    · exact ⟨_, rfl, by decide⟩
    · exact ⟨_, rfl, by decide⟩
    · exact ⟨_, rfl, by decide⟩
    · exact ⟨_, rfl, by decide⟩
    · exact ⟨_, rfl, by decide⟩
  obtain ⟨tl, he2, htl⟩ := hsplit
  rw [he2] at hst ⊢
  rw [List.cons_append] at hst ⊢
  rw [properEsc, if_pos rfl, hst]
  rw [properEsc_nonamp_append htl rest]
  simp

/-- The central sanitization invariant: after escaping and whitespace
collapse (before truncation), every `'&'` starts a complete entity. -/
theorem properEsc_collapse_escape (l : List Char) :
    ∀ b, properEsc (collapseAux b (escapeHtml l)) = true := by
  induction l with
  | nil => intro b; rfl
  | cons c cs ih =>
    intro b
    rw [escapeHtml]
    by_cases hsp : isJsSpace c = true
    · rw [escChar_of_space hsp, List.singleton_append, collapseAux, if_pos hsp]
      cases b with
      | true =>
        rw [if_pos rfl]
        exact ih true
      | false =>
        rw [if_neg (by decide)]
        rw [properEsc_cons_nonamp (by decide)]
        exact ih true
    · have hsp2 : isJsSpace c = false := by simpa using hsp
      rw [collapseAux_nonspace_append (escChar_nonspace hsp2) (escChar_ne_nil c) b]
      rcases escChar_cases c with hent | ⟨heq, hamp⟩
      · rw [properEsc_entity_append hent]
        exact ih false
      · rw [heq, List.singleton_append, properEsc_cons_nonamp hamp]
        exact ih false

theorem dropWhile_cons_of_false {p : Char → Bool} {c : Char} (hp : p c = false)
    (l : List Char) : List.dropWhile p (c :: l) = c :: l := by
  simp [List.dropWhile_cons, hp]

/-- The C4 counterexample input: one `a` followed by 4000 ampersands.  Its
trimmed length 4001 is within bounds; escaping expands it to 20001
characters, so the final `slice(0, 20000)` cuts the last entity `&amp;`
down to `&amp`, leaving a trailing unescaped ampersand fragment. -/
def c4Text : List Char := 'a' :: List.replicate 4000 '&'

theorem c4_trim : jsTrim c4Text = c4Text := by
  unfold jsTrim c4Text
  rw [dropWhile_cons_of_false (by decide), List.reverse_cons, List.reverse_replicate,
      dropWhile_replicate_append_of_false (by decide) (by decide),
      List.reverse_append, List.reverse_replicate]
  rfl

theorem c4_nonspace : ∀ x ∈ c4Text, isJsSpace x = false := by
  intro x hx
  rcases List.mem_cons.mp hx with rfl | h
  · decide
  · rw [List.eq_of_mem_replicate h]; decide

theorem escape_amp_replicate (n : Nat) :
    escapeHtml (List.replicate (n + 1) '&') =
      escapeHtml (List.replicate n '&') ++ "&amp;".data := by
  rw [List.replicate_succ' n '&', escapeHtml_append]
  rfl

theorem escape_amp_length : ∀ n, (escapeHtml (List.replicate n '&')).length = 5 * n
  | 0 => rfl
  | n + 1 => by
    rw [escape_amp_replicate n, List.length_append, escape_amp_length n]
    have h5 : ("&amp;".data).length = 5 := rfl
    omega

theorem properEsc_escape_amp_append :
    ∀ (n : Nat) (rest : List Char),
      properEsc (escapeHtml (List.replicate n '&') ++ rest) = properEsc rest
  | 0, rest => rfl
  | n + 1, rest => by
    rw [escape_amp_replicate n, List.append_assoc,
        properEsc_escape_amp_append n, properEsc_entity_append (by decide)]

theorem c4_sanitize :
    sanitize c4Text =
      'a' :: (escapeHtml (List.replicate 3999 '&') ++ "&amp".data) := by
  have hesc : escapeHtml c4Text = 'a' :: escapeHtml (List.replicate 4000 '&') := by
    rw [c4Text, escapeHtml]
    rfl
  have hns : ∀ x ∈ escapeHtml c4Text, isJsSpace x = false :=
    escapeHtml_nonspace c4_nonspace
  rw [hesc] at hns
  unfold sanitize collapseWs
  rw [show escapeHtml c4Text = 'a' :: escapeHtml (List.replicate 4000 '&') from hesc]
  rw [collapseAux_of_nonspace hns]
  rw [show (20000 : Nat) = 19999 + 1 from rfl, List.take_succ_cons]
  rw [show (4000 : Nat) = 3999 + 1 from rfl, escape_amp_replicate 3999]
  rw [List.take_append_eq_append_take]
  rw [List.take_of_length_le (by rw [escape_amp_length 3999]; omega)]
  rw [escape_amp_length 3999]
  rfl

theorem c4_validate :
    validate (some (.str (String.mk c4Text))) none =
      Validated.accepted (sanitize (jsTrim c4Text)) Lang.en := by
  have hdata : (String.mk c4Text).data = c4Text := rfl
  have hlen : (jsTrim c4Text).length = 4001 := by
    rw [c4_trim]; unfold c4Text
    rw [List.length_cons, List.length_replicate]
  rw [validate_str _ none (by rw [hdata]; unfold c4Text; exact List.cons_ne_nil _ _)]
  rw [hdata, if_neg (by omega), if_neg (by omega)]
  rfl

/-- C4 (counterexample): the claim also asserts the sanitized text contains
no raw `'&'`; but on this accepted input the post-escape truncation cuts the
final entity, so the sanitized text ends in the fragment `&amp` whose
ampersand starts no complete entity. -/
theorem C4_counterexample :
    validate (some (.str (String.mk c4Text))) none =
      Validated.accepted (sanitize (jsTrim c4Text)) Lang.en ∧
    properEsc (sanitize (jsTrim c4Text)) = false := by
  refine ⟨c4_validate, ?_⟩
  rw [c4_trim, c4_sanitize, properEsc_cons_nonamp (by decide),
      properEsc_escape_amp_append 3999]
  decide

/-- C4 (amended): for every accepted input the sanitized text has length at
most 20000 — even when escaping expands the text past 20000, because
truncation is applied after escaping — and contains no `'<'` or `'>'`
character at all; every `'&'` in the escaped, collapsed text begins a
complete escape entity, though the final truncation may cut the trailing
entity (see the counterexample). -/
theorem C4_sanitize_props (text language : Option Json) (safe : List Char)
    (lg : Lang) (h : validate text language = Validated.accepted safe lg) :
    safe.length ≤ 20000 ∧
    (∀ c ∈ safe, c ≠ '<' ∧ c ≠ '>') ∧
    ∃ s : String, text = some (.str s) ∧
      safe = sanitize (jsTrim s.data) ∧
      properEsc (collapseWs (escapeHtml (jsTrim s.data))) = true := by
  rcases text with _ | t
  · exact absurd h (by simp [validate])
  · rcases t with _ | b | ⟨m, e⟩ | s | xs | kvs
    case str =>
      by_cases hne : s.data = []
      · have hv : validate (some (.str s)) language =
            .rejected (.err 400 "Invalid payload: text required") := by
          unfold validate; simp [hne]
        rw [hv] at h
        exact absurd h (by simp)
      · rw [validate_str s language hne] at h
        by_cases hshort : (jsTrim s.data).length < 50
        · rw [if_pos hshort] at h
          exact absurd h (by simp)
        · rw [if_neg hshort] at h
          by_cases hlong : 20000 < (jsTrim s.data).length
          · rw [if_pos hlong] at h
            exact absurd h (by simp)
          · rw [if_neg hlong] at h
            injection h with h1 h2
            refine ⟨?_, ?_, s, rfl, h1.symm, properEsc_collapse_escape _ false⟩
            · rw [← h1, sanitize, List.length_take]
              omega
            · intro c hc
              rw [← h1] at hc
              have hc2 : c ∈ collapseWs (escapeHtml (jsTrim s.data)) :=
                List.take_subset _ _ hc
              rcases collapseAux_mem _ false hc2 with rfl | hc3
              · exact ⟨by decide, by decide⟩
              · exact escapeHtml_mem_ne hc3
    all_goals exact absurd h (by simp [validate])

/-- C4 witness: instantiated at 50 `a`s. -/
theorem C4_witness :
    (sanitize (jsTrim (String.mk (List.replicate 50 'a')).data)).length ≤ 20000 :=
  (C4_sanitize_props (some (.str (String.mk (List.replicate 50 'a')))) none
    (sanitize (jsTrim (String.mk (List.replicate 50 'a')).data)) (langOf none) rfl).1

end PP
